import Mathlib

/-!
Shallow embedding of the data-processing pipeline of the `mlops-project`
repository (`src/processing/features.py`, `src/processing/split.py`,
`src/models/train.py`, `src/orchestration/flows.py`).

A pandas `DataFrame` is embedded as a Lean `List` of rows (the row type is a
type parameter for the row-generic operations `apply_rolling_window` and
`split_data`, and a concrete record for the feature table).  A pandas `Series`
column is a `List (Option ℚ)` of the same length as the frame: `none` stands
for a NaN entry, `some q` for a (real-valued) entry.  Real-number arithmetic
of the source is idealised as exact arithmetic over `ℚ`; the two transcendental
functions the source uses (`np.log` inside the log-return feature and the
square root inside pandas' rolling `std`) are passed in as explicit function
parameters `rlog rsqrt : ℚ → ℚ` since their exact values never matter to the
claims about the rational part of the pipeline.  The clustering trainer, whose
claim is precisely about the value of the volatility column, is embedded
separately over `ℝ` with the genuine `Real.log` and `Real.sqrt`.
-/

namespace MLOps

/-- Constant `ROLLING_WINDOW_DAYS` from both `features.py` and `split.py`. -/
def ROLLING_WINDOW_DAYS : ℕ := 700

/-- Function `apply_rolling_window(df, window_days)` (identical in `features.py` and
`split.py`): if the frame has at most `window_days` rows it is returned
unchanged (with a logged warning); otherwise only the last `window_days`
rows (`df.tail(window_days)`) are kept. -/
def apply_rolling_window {α : Type} (df : List α) (window_days : ℕ := ROLLING_WINDOW_DAYS) :
    List α :=
  if df.length ≤ window_days then df
  else df.drop (df.length - window_days)

/-- Function `split_data(df, test_size, apply_window)` from `split.py`: optionally
re-applies the rolling window, then cuts the frame at
`split_idx = int(len(df) * (1 - test_size))` into the chronological prefix
(`df.iloc[:split_idx]`, train) and suffix (`df.iloc[split_idx:]`, test).
Python's `int()` truncates toward zero; on the nonnegative values arising for
`test_size ≤ 1` this is `Nat.floor`, and for `test_size > 1` both give `0`. -/
def split_data {α : Type} (df : List α) (test_size : ℚ := 2/10)
    (apply_window : Bool := true) : List α × List α :=
  let df' := if apply_window then apply_rolling_window df else df
  let split_idx : ℕ := ⌊(df'.length : ℚ) * (1 - test_size)⌋₊
  (df'.take split_idx, df'.drop split_idx)

/-- pandas `Series.rolling(window=w).mean()` over a column with no NaN
entries: entry `i` is the arithmetic mean of the `w` trailing values
(indices `i−w+1 … i`), NaN (`none`) while fewer than `w` observations are
available, i.e. for the first `w−1` indices. -/
def rolling_mean (w : ℕ) (xs : List ℚ) : List (Option ℚ) :=
  (List.range xs.length).map fun i =>
    if w ≤ i + 1 then some (((xs.drop (i + 1 - w)).take w).sum / w) else none

/-- Function `calculate_sma(data, window)` from `features.py`:
`data['close'].rolling(window=window).mean()`. -/
def calculate_sma (close : List ℚ) (window : ℕ := 20) : List (Option ℚ) :=
  rolling_mean window close

/-- pandas `Series.diff()`: entry 0 is NaN, entry `i+1` is `x[i+1] − x[i]`. -/
def diff (xs : List ℚ) : List (Option ℚ) :=
  match xs with
  | [] => []
  | _ :: _ => none :: List.zipWith (fun a b => some (b - a)) xs xs.tail

/-- Expression `delta.where(delta > 0, 0)` from `calculate_rsi`: a NaN difference fails
the comparison (`NaN > 0` is false in pandas) and is replaced by `0`. -/
def where_pos : Option ℚ → ℚ
  | none => 0
  | some x => if 0 < x then x else 0

/-- Expression `(-delta.where(delta < 0, 0))` from `calculate_rsi`: the negated
negative part, again with NaN replaced by `0` before negation. -/
def where_neg : Option ℚ → ℚ
  | none => 0
  | some x => if x < 0 then -x else 0

/-- Function `calculate_rsi(data, window)` from `features.py`.  `gain` and `loss` are
rolling means of the clipped day-over-day differences; `rs = gain / loss` and
the result is `100 − 100/(1 + rs)`.  The arithmetic over IEEE floats is:
both `gain` and `loss` are nonnegative; when `loss = 0` and `gain > 0` the
ratio is `+∞` and the formula collapses to `100`; when `loss = 0` and
`gain = 0` the ratio is NaN and so is the result; otherwise all operations
are finite.  The embedding spells out exactly these three cases. -/
def calculate_rsi (close : List ℚ) (window : ℕ := 14) : List (Option ℚ) :=
  let gain := rolling_mean window ((diff close).map where_pos)
  let loss := rolling_mean window ((diff close).map where_neg)
  List.zipWith
    (fun og ol => og.bind fun g => ol.bind fun l =>
      if l = 0 then (if g = 0 then none else some 100)
      else some (100 - 100 / (1 + g / l)))
    gain loss

/-- The tail of pandas `Series.ewm(adjust=False).mean()` with smoothing
factor `a`, given the previous EMA value `prev`: each step emits
`a·x + (1−a)·prev`. -/
def ewm_rec (a : ℚ) : ℚ → List ℚ → List ℚ
  | _, [] => []
  | prev, x :: xs => (a * x + (1 - a) * prev) :: ewm_rec a (a * x + (1 - a) * prev) xs

/-- pandas `Series.ewm(span=span, adjust=False).mean()`: the first output is
the first observation; afterwards the recurrence `e_t = α·x_t + (1−α)·e_{t−1}`
with fixed `α = 2/(span+1)`. -/
def ewm_adjust_false (span : ℕ) (xs : List ℚ) : List ℚ :=
  match xs with
  | [] => []
  | x :: rest => x :: ewm_rec (2 / (span + 1)) x rest

/-- Function `calculate_macd(data, slow, fast, signal)` from `features.py`: the MACD
line is the fast EMA minus the slow EMA of the close, and the signal line is
the EMA of the MACD line over the signal span; all three EMAs use
`adjust=False`. -/
def calculate_macd (close : List ℚ) (slow : ℕ := 26) (fast : ℕ := 12)
    (signal : ℕ := 9) : List ℚ × List ℚ :=
  let exp1 := ewm_adjust_false fast close
  let exp2 := ewm_adjust_false slow close
  let macd := List.zipWith (· - ·) exp1 exp2
  (macd, ewm_adjust_false signal macd)

/-- Column `df['log_return'] = np.log(df['close'] / df['close'].shift(1))` from
`add_stationary_features`: NaN on the first row; afterwards the natural
logarithm of the close ratio.  `rlog` stands for the real logarithm; a
nonpositive ratio (impossible for positive prices) would give NaN. -/
def log_return_col (rlog : ℚ → ℚ) (close : List ℚ) : List (Option ℚ) :=
  match close with
  | [] => []
  | _ :: _ =>
    none :: List.zipWith
      (fun a b => if 0 < b / a then some (rlog (b / a)) else none) close close.tail

/-- Column `df['pct_return'] = df['close'].pct_change()` from
`add_stationary_features`: NaN on the first row; afterwards
`(close − prev) / prev` (a zero previous close, impossible for positive
prices, would give an infinity). -/
def pct_return_col (close : List ℚ) : List (Option ℚ) :=
  match close with
  | [] => []
  | _ :: _ =>
    none :: List.zipWith
      (fun a b => if a = 0 then none else some ((b - a) / a)) close close.tail

/-- The sample variance (pandas' default `ddof=1`) of a full window:
`Σ (x − mean)² / (n − 1)`. -/
def sample_variance (l : List ℚ) : ℚ :=
  ((l.map fun x => (x - l.sum / l.length) ^ 2).sum) / ((l.length : ℚ) - 1)

/-- pandas `Series.rolling(window=w).std()` over a column that may contain
NaN entries: NaN while the window is not yet full or contains a NaN,
otherwise the square root (`rsqrt`) of the sample variance of the window. -/
def rolling_std (rsqrt : ℚ → ℚ) (w : ℕ) (xs : List (Option ℚ)) : List (Option ℚ) :=
  (List.range xs.length).map fun i =>
    if w ≤ i + 1 then
      (if ((xs.drop (i + 1 - w)).take w).all Option.isSome then
        some (rsqrt (sample_variance (((xs.drop (i + 1 - w)).take w).filterMap id)))
      else none)
    else none

/-- Column `df['volatility_20'] = df['log_return'].rolling(window=20).std()` from
`add_stationary_features`. -/
def volatility_20_col (rlog rsqrt : ℚ → ℚ) (close : List ℚ) : List (Option ℚ) :=
  rolling_std rsqrt 20 (log_return_col rlog close)

/-- Column `df['price_zscore'] = (close − close.rolling(50).mean()) /
close.rolling(50).std()` from `add_stationary_features`.  pandas' rolling
`std` is the real square root of the sample variance, which vanishes exactly
when the variance does (all 50 closes equal — and then the numerator is 0
too, so the entry is NaN as `0/0`); the variance-zero test below is therefore
the exact NaN condition of the source. -/
def price_zscore_col (rsqrt : ℚ → ℚ) (close : List ℚ) : List (Option ℚ) :=
  (List.range close.length).map fun i =>
    if 50 ≤ i + 1 then
      (if sample_variance ((close.drop (i + 1 - 50)).take 50) = 0 then none
       else some ((close.getD i 0 - ((close.drop (i + 1 - 50)).take 50).sum / 50) /
         rsqrt (sample_variance ((close.drop (i + 1 - 50)).take 50))))
    else none

/-- Column `df['target_direction'] = (df['close'].shift(-1) > df['close']).astype(int)`
from `process_data`: 1 when the next close strictly exceeds the current one,
0 otherwise — on the last row the shifted value is NaN, the comparison is
false, and the entry is 0. -/
def target_direction_col (close : List ℚ) : List ℕ :=
  (List.range close.length).map fun i =>
    match close[i + 1]? with
    | some nxt => if close.getD i 0 < nxt then 1 else 0
    | none => 0

/-- Column `df['target_price'] = df['close'].shift(-1)` from `process_data`: the
next row's close, NaN on the last row. -/
def target_price_col (close : List ℚ) : List (Option ℚ) :=
  (List.range close.length).map fun i => close[i + 1]?

/-- One row of the processed feature table of `process_data`, tagged NaN-able
columns as `Option`.  `close`, `macd`, `macd_signal` and `target_direction`
can never be NaN (the EMA has no warm-up NaN and the direction comparison
maps NaN to 0). -/
structure FeatureRow where
  close : ℚ
  log_return : Option ℚ
  pct_return : Option ℚ
  volatility_20 : Option ℚ
  price_zscore : Option ℚ
  sma_20 : Option ℚ
  sma_50 : Option ℚ
  rsi : Option ℚ
  macd : ℚ
  macd_signal : ℚ
  target_direction : ℕ
  target_price : Option ℚ
  deriving DecidableEq, Repr

/-- Pruning `df.dropna()` keeps a row iff none of its NaN-able entries is NaN. -/
def row_complete (r : FeatureRow) : Bool :=
  r.log_return.isSome && r.pct_return.isSome && r.volatility_20.isSome &&
    r.price_zscore.isSome && r.sma_20.isSome && r.sma_50.isSome && r.rsi.isSome &&
    r.target_price.isSome

/-- Row `i` of the full (pre-`dropna`) feature table of `process_data`. -/
def feature_row (rlog rsqrt : ℚ → ℚ) (close : List ℚ) (i : ℕ) : FeatureRow :=
  { close := close.getD i 0
    log_return := (log_return_col rlog close).getD i none
    pct_return := (pct_return_col close).getD i none
    volatility_20 := (volatility_20_col rlog rsqrt close).getD i none
    price_zscore := (price_zscore_col rsqrt close).getD i none
    sma_20 := (calculate_sma close 20).getD i none
    sma_50 := (calculate_sma close 50).getD i none
    rsi := (calculate_rsi close 14).getD i none
    macd := (calculate_macd close).1.getD i 0
    macd_signal := (calculate_macd close).2.getD i 0
    target_direction := (target_direction_col close).getD i 0
    target_price := (target_price_col close).getD i none }

/-- The full (pre-`dropna`) feature table of `process_data`, each row tagged
with its positional index in the (possibly windowed) close series. -/
def build_rows (rlog rsqrt : ℚ → ℚ) (close : List ℚ) : List (ℕ × FeatureRow) :=
  (List.range close.length).map fun i => (i, feature_row rlog rsqrt close i)

/-- The close series actually processed: `process_data` applies the rolling
window first when `apply_window` is set. -/
def effective_table (apply_window : Bool) (close : List ℚ) : List ℚ :=
  if apply_window then apply_rolling_window close else close

/-- Function `process_data(file_path, output_path, apply_window)` from `features.py`,
restricted to its in-memory computation on the (already timestamp-sorted)
close series: optionally apply the rolling window, attach the stationary
features, the technical indicators and the two supervised targets, then
`dropna()`.  The CSV read/write, the timestamp parsing/sorting and the
column-name lowercasing act before/after this computation and are outside
the model; the function prints the number of dropped rows but raises no
error, whatever that number is. -/
def process_data (rlog rsqrt : ℚ → ℚ) (apply_window : Bool) (close : List ℚ) :
    List (ℕ × FeatureRow) :=
  (build_rows rlog rsqrt (effective_table apply_window close)).filter fun p =>
    row_complete p.2

end MLOps

namespace MLOps

/-- Indexing a column built pointwise over `List.range`. -/
theorem range_map_getElem? {α : Type} (f : ℕ → α) (n i : ℕ) (h : i < n) :
    ((List.range n).map f)[i]? = some (f i) := by
  rw [List.getElem?_map, List.getElem?_range h]
  rfl

/-- A full window sliced out of a list: it has exactly `w` elements. -/
theorem window_length {α : Type} (xs : List α) (w i : ℕ)
    (hw : w ≤ i + 1) (hi : i < xs.length) :
    ((xs.drop (i + 1 - w)).take w).length = w := by
  rw [List.length_take, List.length_drop]
  omega

/-- C4: the SMA column is aligned with the input; at every index `i` with
`i + 1 < w` it is NaN (undefined for the first `w−1` indices); at every index
with `w ≤ i + 1` it is the arithmetic mean of the closes at indices
`i−w+1 … i` (a full window of exactly `w` values); and on a constant series
of value `v` every defined entry equals `v` — in particular SMA-20 and SMA-50
of a constant-100 series are 100 at every defined index. -/
theorem calculate_sma_spec (close : List ℚ) (w : ℕ) (hw : 1 ≤ w) :
    (calculate_sma close w).length = close.length ∧
    (∀ i, i < close.length → i + 1 < w → (calculate_sma close w)[i]? = some none) ∧
    (∀ i, i < close.length → w ≤ i + 1 →
      ((close.drop (i + 1 - w)).take w).length = w ∧
      (calculate_sma close w)[i]? =
        some (some (((close.drop (i + 1 - w)).take w).sum / w))) ∧
    (∀ n v i, i < n → w ≤ i + 1 →
      (calculate_sma (List.replicate n v) w)[i]? = some (some v)) := by
  refine ⟨?_, ?_, ?_, ?_⟩
  · simp [calculate_sma, rolling_mean]
  · intro i hi hlt
    unfold calculate_sma rolling_mean
    rw [range_map_getElem? _ _ _ hi, if_neg (by omega)]
  · intro i hi hge
    refine ⟨window_length close w i hge hi, ?_⟩
    unfold calculate_sma rolling_mean
    rw [range_map_getElem? _ _ _ hi, if_pos hge]
  · intro n v i hi hge
    unfold calculate_sma rolling_mean
    rw [List.length_replicate, range_map_getElem? _ _ _ hi, if_pos hge]
    rw [List.drop_replicate, List.take_replicate]
    have hmin : min w (n - (i + 1 - w)) = w := by omega
    rw [hmin, List.sum_replicate, nsmul_eq_mul,
      mul_div_cancel_left₀ _ (by exact_mod_cast Nat.one_le_iff_ne_zero.mp hw)]

/-- Witness for C4 on a constant-price series of value 100 with 60 rows:
SMA-20 at index 19 and SMA-50 at index 49 are both defined and equal 100,
while SMA-50 at index 48 is still NaN. -/
theorem calculate_sma_spec_witness :
    (calculate_sma (List.replicate 60 (100 : ℚ)) 20)[19]? = some (some 100) ∧
    (calculate_sma (List.replicate 60 (100 : ℚ)) 50)[49]? = some (some 100) ∧
    (calculate_sma (List.replicate 60 (100 : ℚ)) 50)[48]? = some none := by
  refine ⟨?_, ?_, ?_⟩
  · exact (calculate_sma_spec (List.replicate 60 100) 20 (by norm_num)).2.2.2
      60 100 19 (by norm_num) (by norm_num)
  · exact (calculate_sma_spec (List.replicate 60 100) 50 (by norm_num)).2.2.2
      60 100 49 (by norm_num) (by norm_num)
  · exact (calculate_sma_spec (List.replicate 60 100) 50 (by norm_num)).2.1
      48 (by simp) (by norm_num)

/-- The first emitted value of the EMA tail blends the first remaining
observation with the carried value. -/
theorem ewm_rec_head (a p : ℚ) (ys : List ℚ) :
    (ewm_rec a p ys)[0]? = ys[0]?.map fun x => a * x + (1 - a) * p := by
  cases ys <;> simp [ewm_rec]

/-- One step of the `adjust=False` EMA recurrence, inside the tail. -/
theorem ewm_rec_step (a : ℚ) :
    ∀ (xs : List ℚ) (prev : ℚ) (i : ℕ) (e x : ℚ),
      (ewm_rec a prev xs)[i]? = some e → xs[i + 1]? = some x →
      (ewm_rec a prev xs)[i + 1]? = some (a * x + (1 - a) * e) := by
  intro xs
  induction xs with
  | nil => intro prev i e x h _; simp [ewm_rec] at h
  | cons y ys ih =>
    intro prev i e x h hx
    cases i with
    | zero =>
      simp only [ewm_rec, List.getElem?_cons_zero, Option.some.injEq] at h
      simp only [List.getElem?_cons_succ] at hx
      simp only [ewm_rec, List.getElem?_cons_succ]
      rw [ewm_rec_head, hx, h]
      rfl
    | succ n =>
      simp only [ewm_rec, List.getElem?_cons_succ] at h hx ⊢
      exact ih _ n e x h hx

/-- C6: the EMAs used by `calculate_macd` follow the `adjust=False`
recurrence with fixed smoothing factor `α = 2/(span+1)`: the EMA at index 0
is the first observation, and each later entry is `α·x + (1−α)·previous`;
the MACD line is the fast EMA minus the slow EMA pointwise, and the signal
line is the EMA of the MACD line over the signal span under the same
recurrence (defaults `fast = 12`, `slow = 26`, `signal = 9`). -/
theorem calculate_macd_spec (close : List ℚ) (slow fast signal : ℕ) :
    (∀ (span : ℕ) (x : ℚ) (xs : List ℚ),
      (ewm_adjust_false span (x :: xs))[0]? = some x) ∧
    (∀ (span : ℕ) (xs : List ℚ) (i : ℕ) (e x : ℚ),
      (ewm_adjust_false span xs)[i]? = some e → xs[i + 1]? = some x →
      (ewm_adjust_false span xs)[i + 1]? =
        some ((2 / ((span : ℚ) + 1)) * x + (1 - 2 / ((span : ℚ) + 1)) * e)) ∧
    (calculate_macd close slow fast signal).1 =
      List.zipWith (· - ·) (ewm_adjust_false fast close) (ewm_adjust_false slow close) ∧
    (calculate_macd close slow fast signal).2 =
      ewm_adjust_false signal (calculate_macd close slow fast signal).1 ∧
    calculate_macd close = calculate_macd close 26 12 9 := by
  refine ⟨?_, ?_, rfl, rfl, rfl⟩
  · intro span x xs
    simp [ewm_adjust_false]
  · intro span xs i e x h hx
    match xs with
    | [] => simp [ewm_adjust_false] at h
    | y :: ys =>
      cases i with
      | zero =>
        simp only [ewm_adjust_false, List.getElem?_cons_zero, Option.some.injEq] at h
        simp only [List.getElem?_cons_succ] at hx
        simp only [ewm_adjust_false, List.getElem?_cons_succ]
        rw [ewm_rec_head, hx, h]
        rfl
      | succ n =>
        simp only [ewm_adjust_false, List.getElem?_cons_succ] at h hx ⊢
        exact ewm_rec_step _ _ _ _ _ _ h hx

/-- Witness for C6: with span 3 (so `α = 1/2`) the EMA of `[4, 6]` starts at
`4` and its second entry is `(1/2)·6 + (1/2)·4 = 5`, obtained by the
recurrence conjunct of `calculate_macd_spec`. -/
theorem calculate_macd_spec_witness :
    (ewm_adjust_false 3 ([4, 6] : List ℚ))[0]? = some 4 ∧
    (ewm_adjust_false 3 ([4, 6] : List ℚ))[1]? =
      some ((2 / ((3 : ℚ) + 1)) * 6 + (1 - 2 / ((3 : ℚ) + 1)) * 4) ∧
    (calculate_macd ([4, 6] : List ℚ) 26 12 9).1 =
      List.zipWith (· - ·) (ewm_adjust_false 12 [4, 6]) (ewm_adjust_false 26 [4, 6]) := by
  refine ⟨(calculate_macd_spec [4, 6] 26 12 9).1 3 4 [6], ?_,
    (calculate_macd_spec [4, 6] 26 12 9).2.2.1⟩
  exact (calculate_macd_spec [4, 6] 26 12 9).2.1 3 [4, 6] 0 4 6 rfl rfl

/-- Column `diff` is aligned with its input. -/
theorem diff_length (xs : List ℚ) : (diff xs).length = xs.length := by
  cases xs with
  | nil => rfl
  | cons x xs' => simp [diff, List.length_zipWith]

/-- Clipped gains are never negative. -/
theorem where_pos_nonneg (d : Option ℚ) : 0 ≤ where_pos d := by
  cases d with
  | none => simp [where_pos]
  | some v =>
    dsimp [where_pos]
    split
    · linarith
    · exact le_refl 0

/-- On a strictly increasing close series every clipped loss is zero: the
loss column that `calculate_rsi` averages is identically `0`. -/
theorem loss_eq_replicate (close : List ℚ) (hmono : close.Pairwise (· < ·)) :
    (diff close).map where_neg = List.replicate close.length 0 := by
  apply List.ext_getElem
  · simp [diff_length]
  · intro i h1 h2
    rw [List.getElem_map, List.getElem_replicate]
    match close, hmono with
    | [], _ => simp [diff_length] at h1
    | c :: cs, hmono =>
      have hlen : i < (diff (c :: cs)).length := by
        simpa using h1
      cases i with
      | zero => rfl
      | succ j =>
        have hj : j < cs.length := by
          rw [diff_length] at hlen
          simpa using Nat.lt_of_succ_lt_succ hlen
        have hz : j < (List.zipWith (fun a b => some (b - a)) (c :: cs) (c :: cs).tail).length := by
          simp [List.length_zipWith]
          omega
        simp only [diff, List.getElem_cons_succ]
        rw [List.getElem_zipWith]
        have hjc : j < (c :: cs).length := by simpa using Nat.lt_succ_of_lt hj
        have hjc1 : j + 1 < (c :: cs).length := by simpa using Nat.succ_lt_succ hj
        have hlt : (c :: cs)[j] < cs[j] := by
          have hpj : (c :: cs)[j] < (c :: cs)[j + 1] :=
            List.pairwise_iff_getElem.mp hmono j (j + 1) hjc hjc1 (by omega)
          simpa using hpj
        dsimp [where_neg]
        rw [if_neg (by linarith)]

/-- On a strictly increasing close series every clipped gain at an index
`≥ 1` is strictly positive (the day-over-day difference itself). -/
theorem gain_entry_pos (close : List ℚ) (hmono : close.Pairwise (· < ·))
    (i : ℕ) (h1 : 1 ≤ i) (hi : i < ((diff close).map where_pos).length) :
    0 < ((diff close).map where_pos)[i] := by
  match close, hmono with
  | [], _ => simp [diff_length] at hi
  | c :: cs, hmono =>
    obtain ⟨j, rfl⟩ : ∃ j, i = j + 1 := ⟨i - 1, by omega⟩
    have hlen : j + 1 < (diff (c :: cs)).length := by simpa using hi
    have hj : j < cs.length := by
      rw [diff_length] at hlen
      simpa using Nat.lt_of_succ_lt_succ hlen
    rw [List.getElem_map]
    simp only [diff, List.getElem_cons_succ]
    rw [List.getElem_zipWith]
    have hjc : j < (c :: cs).length := by simpa using Nat.lt_succ_of_lt hj
    have hjc1 : j + 1 < (c :: cs).length := by simpa using Nat.succ_lt_succ hj
    have hlt : (c :: cs)[j] < cs[j] := by
      have hpj : (c :: cs)[j] < (c :: cs)[j + 1] :=
        List.pairwise_iff_getElem.mp hmono j (j + 1) hjc hjc1 (by omega)
      simpa using hpj
    dsimp [where_pos]
    rw [if_pos (by linarith)]
    linarith

/-- C3: `apply_rolling_window` keeps exactly the last `min n N` rows: in
general it returns `df.drop (n − N)` (so its length is `min n N`); a table
with at most `N` rows is returned unchanged; and re-applying it with the same
or a larger window is a no-op (idempotence), so the splitter's re-application
after the feature builder never changes the table. -/
theorem apply_rolling_window_spec {α : Type} (df : List α) (N : ℕ) :
    apply_rolling_window df N = df.drop (df.length - N) ∧
    (apply_rolling_window df N).length = min df.length N ∧
    (df.length ≤ N → apply_rolling_window df N = df) ∧
    (∀ N', N ≤ N' →
      apply_rolling_window (apply_rolling_window df N) N' = apply_rolling_window df N) := by
  have hdrop : apply_rolling_window df N = df.drop (df.length - N) := by
    unfold apply_rolling_window
    split
    · next h => simp [Nat.sub_eq_zero_of_le h]
    · rfl
  have hlen : (apply_rolling_window df N).length = min df.length N := by
    rw [hdrop, List.length_drop]
    omega
  refine ⟨hdrop, hlen, ?_, ?_⟩
  · intro h
    unfold apply_rolling_window
    simp [h]
  · intro N' hNN'
    unfold apply_rolling_window
    split
    · next h =>
      have : df.length ≤ N' := le_trans h hNN'
      simp [this]
    · next h =>
      have hl : (df.drop (df.length - N)).length = N := by
        rw [List.length_drop]; omega
      rw [if_pos (by rw [hl]; exact hNN')]

/-- Witness for C3 at concrete inputs: a 1000-row table truncated to a 700-day
window yields exactly the most recent 700 rows, a 500-row table is unchanged,
and re-truncating with an equal window is a no-op. -/
theorem apply_rolling_window_spec_witness :
    apply_rolling_window (List.range 1000) 700 = (List.range 1000).drop 300 ∧
    apply_rolling_window (List.range 500) 700 = List.range 500 ∧
    apply_rolling_window (apply_rolling_window (List.range 1000) 700) 700 =
      apply_rolling_window (List.range 1000) 700 := by
  refine ⟨?_, ?_, ?_⟩
  · have h := (apply_rolling_window_spec (List.range 1000) 700).1
    simpa using h
  · exact (apply_rolling_window_spec (List.range 500) 700).2.2.1 (by simp)
  · exact (apply_rolling_window_spec (List.range 1000) 700).2.2.2 700 le_rfl

/-- C2: for a feature table whose length does not exceed the rolling window
(so the splitter's optional re-truncation is the identity) and a test
fraction strictly between 0 and 1, `split_data` returns the chronological
prefix of exactly `⌊n·(1−t)⌋` rows as train and the remaining suffix as test,
with no shuffling; consequently, for any timestamp assignment under which the
rows are strictly increasing, every train timestamp is strictly smaller than
every test timestamp. -/
theorem split_data_spec {α : Type} (df : List α) (t : ℚ) (aw : Bool)
    (ht0 : 0 < t) (_ht1 : t < 1) (hlen : df.length ≤ ROLLING_WINDOW_DAYS) :
    split_data df t aw = (df.take ⌊(df.length : ℚ) * (1 - t)⌋₊,
                          df.drop ⌊(df.length : ℚ) * (1 - t)⌋₊) ∧
    (split_data df t aw).1.length = ⌊(df.length : ℚ) * (1 - t)⌋₊ ∧
    (∀ (ts : α → ℚ), df.Pairwise (fun a b => ts a < ts b) →
      ∀ a ∈ (split_data df t aw).1, ∀ b ∈ (split_data df t aw).2, ts a < ts b) := by
  have hwin : (if aw then apply_rolling_window df else df) = df := by
    cases aw with
    | false => rfl
    | true => exact (apply_rolling_window_spec df ROLLING_WINDOW_DAYS).2.2.1 hlen
  have heq : split_data df t aw = (df.take ⌊(df.length : ℚ) * (1 - t)⌋₊,
      df.drop ⌊(df.length : ℚ) * (1 - t)⌋₊) := by
    unfold split_data
    rw [hwin]
  have hidx : ⌊(df.length : ℚ) * (1 - t)⌋₊ ≤ df.length := by
    have h1t : (1 - t : ℚ) ≤ 1 := by linarith
    have hle : (df.length : ℚ) * (1 - t) ≤ (df.length : ℚ) := by
      calc (df.length : ℚ) * (1 - t) ≤ (df.length : ℚ) * 1 := by
            apply mul_le_mul_of_nonneg_left h1t (by positivity)
        _ = (df.length : ℚ) := mul_one _
    calc ⌊(df.length : ℚ) * (1 - t)⌋₊ ≤ ⌊(df.length : ℚ)⌋₊ := Nat.floor_le_floor hle
      _ = df.length := Nat.floor_natCast _
  refine ⟨heq, ?_, ?_⟩
  · rw [heq]
    simpa using hidx
  · intro ts hsort a ha b hb
    rw [heq] at ha hb
    have hsplit : df = df.take ⌊(df.length : ℚ) * (1 - t)⌋₊ ++
        df.drop ⌊(df.length : ℚ) * (1 - t)⌋₊ := (List.take_append_drop _ df).symm
    rw [hsplit, List.pairwise_append] at hsort
    exact hsort.2.2 a ha b hb

/-- Witness for C2: splitting the five-element table `[10,20,30,40,50]` with
timestamps equal to the values and test fraction `1/5` puts the first four
rows in train and the last in test. -/
theorem split_data_spec_witness :
    split_data ([10, 20, 30, 40, 50] : List ℚ) (1/5) true = ([10, 20, 30, 40], [50]) ∧
    (split_data ([10, 20, 30, 40, 50] : List ℚ) (1/5) true).1.length = 4 ∧
    ∀ a ∈ (split_data ([10, 20, 30, 40, 50] : List ℚ) (1/5) true).1,
      ∀ b ∈ (split_data ([10, 20, 30, 40, 50] : List ℚ) (1/5) true).2, a < b := by
  have h := split_data_spec ([10, 20, 30, 40, 50] : List ℚ) (1/5) true
    (by norm_num) (by norm_num) (by simp [ROLLING_WINDOW_DAYS])
  have hfl : ⌊((([10, 20, 30, 40, 50] : List ℚ).length : ℚ)) * (1 - 1/5)⌋₊ = 4 := by
    norm_num
  refine ⟨?_, ?_, ?_⟩
  · rw [h.1, hfl]; rfl
  · rw [h.2.1, hfl]
  · intro a ha b hb
    exact h.2.2 id (by norm_num [List.pairwise_cons]) a ha b hb

/-- C10: the two partitions returned by `split_data`, concatenated in order,
are exactly the input table after the optional rolling-window truncation —
every retained row appears in exactly one partition, none is duplicated or
dropped, and relative order is preserved; an empty input yields two empty
partitions. -/
theorem split_data_partition {α : Type} (df : List α) (t : ℚ) (aw : Bool) :
    (split_data df t aw).1 ++ (split_data df t aw).2 =
      (if aw then apply_rolling_window df else df) ∧
    split_data ([] : List α) t aw = ([], []) := by
  constructor
  · unfold split_data
    exact List.take_append_drop _ _
  · unfold split_data
    cases aw <;> simp [apply_rolling_window]

/-- C5: on a strictly monotonically increasing close series (no down days)
`calculate_rsi` with window 14 yields the defined value 100 at every index
once the window is full (index ≥ 13): the trailing average loss is zero and
the trailing average gain is positive, so the formula saturates at 100
instead of propagating an undefined division result. -/
theorem calculate_rsi_spec (close : List ℚ) (hmono : close.Pairwise (· < ·)) :
    ∀ i, 13 ≤ i → i < close.length → (calculate_rsi close 14)[i]? = some (some 100) := by
  intro i h13 hi
  have hgl : ((diff close).map where_pos).length = close.length := by
    rw [List.length_map, diff_length]
  have hll : ((diff close).map where_neg).length = close.length := by
    rw [List.length_map, diff_length]
  unfold calculate_rsi rolling_mean
  rw [hgl, hll, List.zipWith_map_left, List.zipWith_map_right, List.zipWith_same,
    range_map_getElem? _ _ _ hi]
  simp only [if_pos (show 14 ≤ i + 1 by omega), Option.some_bind, Nat.cast_ofNat]
  have hlosszero :
      (((((diff close).map where_neg).drop (i + 1 - 14)).take 14).sum / 14 : ℚ) = 0 := by
    rw [loss_eq_replicate close hmono, List.drop_replicate, List.take_replicate,
      List.sum_replicate, smul_zero, zero_div]
  rw [hlosszero]
  have hslice : ((((diff close).map where_pos).drop (i + 1 - 14)).take 14).length = 14 :=
    window_length _ 14 i (by omega) (by omega)
  have hidx : i + 1 - 14 + 13 = i := by omega
  have higl : i < ((diff close).map where_pos).length := by omega
  have hmem : ((diff close).map where_pos)[i] ∈
      ((((diff close).map where_pos).drop (i + 1 - 14)).take 14) := by
    have h13' : 13 < ((((diff close).map where_pos).drop (i + 1 - 14)).take 14).length := by
      rw [hslice]; omega
    have hget : ((((diff close).map where_pos).drop (i + 1 - 14)).take 14)[13] =
        ((diff close).map where_pos)[i] := by
      simp only [List.getElem_take, List.getElem_drop, hidx]
    rw [← hget]
    exact List.getElem_mem h13'
  have hpos : 0 < ((diff close).map where_pos)[i] :=
    gain_entry_pos close hmono i (by omega) higl
  have hsum : 0 < ((((diff close).map where_pos).drop (i + 1 - 14)).take 14).sum := by
    have hle := List.single_le_sum
      (l := ((((diff close).map where_pos).drop (i + 1 - 14)).take 14))
      (fun x hx => by
        rcases List.mem_map.mp (List.mem_of_mem_drop (List.mem_of_mem_take hx)) with
          ⟨d, _, rfl⟩
        exact where_pos_nonneg d) _ hmem
    linarith
  have hgainne : ((((diff close).map where_pos).drop (i + 1 - 14)).take 14).sum / 14 ≠ 0 :=
    ne_of_gt (div_pos hsum (by norm_num))
  have h1314 : i + 1 - 14 = i - 13 := by omega
  rw [h1314] at hsum
  simp [hgainne, ne_of_gt hsum]

/-- Witness for C5: the strictly increasing series `1, 2, …, 15` has RSI 100
at indices 13 and 14, where the 14-observation window is full. -/
theorem calculate_rsi_spec_witness :
    (calculate_rsi ([1, 2, 3, 4, 5, 6, 7, 8, 9, 10, 11, 12, 13, 14, 15] : List ℚ)
      14)[13]? = some (some 100) ∧
    (calculate_rsi ([1, 2, 3, 4, 5, 6, 7, 8, 9, 10, 11, 12, 13, 14, 15] : List ℚ)
      14)[14]? = some (some 100) := by
  have hm : ([1, 2, 3, 4, 5, 6, 7, 8, 9, 10, 11, 12, 13, 14, 15] : List ℚ).Pairwise
      (· < ·) := by
    norm_num [List.pairwise_cons]
  exact ⟨calculate_rsi_spec _ hm 13 (by norm_num) (by norm_num),
    calculate_rsi_spec _ hm 14 (by norm_num) (by norm_num)⟩

/-- A `getD` variant of `range_map_getElem?`. -/
theorem range_map_getD {α : Type} (f : ℕ → α) (n i : ℕ) (d : α) (h : i < n) :
    ((List.range n).map f).getD i d = f i := by
  rw [List.getD_eq_getElem?_getD, range_map_getElem? _ _ _ h]
  rfl

/-- Shared fact: on any close series of at most 50 rows every candidate
feature row lacks either its 50-day SMA or its next-day target, so the NaN
pruning of `process_data` leaves nothing. -/
theorem process_data_eq_nil_of_short (rlog rsqrt : ℚ → ℚ) (aw : Bool)
    (close : List ℚ) (h : close.length ≤ 50) :
    process_data rlog rsqrt aw close = [] := by
  have hlen : (effective_table aw close).length ≤ 50 := by
    unfold effective_table
    cases aw with
    | false => simpa using h
    | true =>
      have h2 := (apply_rolling_window_spec close ROLLING_WINDOW_DAYS).2.1
      simp only [if_true]
      omega
  unfold process_data build_rows
  rw [List.filter_eq_nil_iff]
  intro p hp
  rw [List.mem_map] at hp
  obtain ⟨i, hi, rfl⟩ := hp
  rw [List.mem_range] at hi
  unfold row_complete
  by_cases hcase : i + 1 < 50
  · have hsma : (calculate_sma (effective_table aw close) 50)[i]? = some none := by
      unfold calculate_sma rolling_mean
      rw [range_map_getElem? _ _ _ hi, if_neg (by omega)]
    simp [feature_row, hsma]
  · have htp : (target_price_col (effective_table aw close))[i]? = some none := by
      unfold target_price_col
      rw [range_map_getElem? _ _ _ hi, List.getElem?_eq_none (by omega)]
    simp [feature_row, htp]

/-- C1 (amended): whenever the close series has at most 50 rows — so that
either the 50-day SMA window or the next-day target is undefined on every
row — `process_data` returns the *empty* table: the NaN pruning drops every
row, the dropped count is printed, and no error is raised. -/
theorem process_data_short_input_empty (rlog rsqrt : ℚ → ℚ) (aw : Bool)
    (close : List ℚ) (h : close.length ≤ 50) :
    process_data rlog rsqrt aw close = [] :=
  process_data_eq_nil_of_short rlog rsqrt aw close h

/-- Counterexample for C1 as stated: on the length-10 input `1, …, 10`
(shorter than the 50-day SMA window, so zero rows remain after pruning)
`process_data` terminates normally and returns the empty table — it does not
fail with a data-insufficiency error, which its return type (a plain table,
no error channel anywhere in `features.py`) makes impossible. -/
theorem process_data_length10_empty_table :
    process_data (fun _ => 0) (fun _ => 0) true
      ([1, 2, 3, 4, 5, 6, 7, 8, 9, 10] : List ℚ) = [] :=
  process_data_eq_nil_of_short (fun _ => 0) (fun _ => 0) true _ (by decide)

/-- Witness for the amended C1 at the degenerate input of length 10. -/
theorem process_data_short_input_empty_witness :
    ([1, 2, 3, 4, 5, 6, 7, 8, 9, 10] : List ℚ).length ≤ 50 ∧
    process_data (fun _ => 0) (fun _ => 0) true
      ([1, 2, 3, 4, 5, 6, 7, 8, 9, 10] : List ℚ) = [] :=
  ⟨by decide,
    process_data_short_input_empty (fun _ => 0) (fun _ => 0) true _ (by decide)⟩

/-- C7: every row of the pruned output of `process_data` sits at a position
`i` with `i + 1` still inside the (windowed) close series: its `target_price`
is the close at position `i + 1`, and its `target_direction` is 1 exactly
when that next close strictly exceeds the close at position `i` (equal closes
give 0, "down").  In particular no output row corresponds to the final input
row, whose next-day target is undefined and which is therefore dropped. -/
theorem process_data_targets (rlog rsqrt : ℚ → ℚ) (aw : Bool) (close : List ℚ) :
    ∀ p ∈ process_data rlog rsqrt aw close,
      p.1 + 1 < (effective_table aw close).length ∧
      ∃ cur nxt, (effective_table aw close)[p.1]? = some cur ∧
        (effective_table aw close)[p.1 + 1]? = some nxt ∧
        p.2.target_price = some nxt ∧
        p.2.target_direction = (if cur < nxt then 1 else 0) := by
  intro p hp
  unfold process_data at hp
  rw [List.mem_filter] at hp
  obtain ⟨hmem, hcomp⟩ := hp
  unfold build_rows at hmem
  rw [List.mem_map] at hmem
  obtain ⟨i, hi, rfl⟩ := hmem
  rw [List.mem_range] at hi
  have htp : (target_price_col (effective_table aw close)).getD i none =
      (effective_table aw close)[i + 1]? := by
    unfold target_price_col
    rw [range_map_getD _ _ _ _ hi]
  have hsome : ((effective_table aw close)[i + 1]?).isSome := by
    rw [← htp]
    simp only [row_complete, feature_row, Bool.and_eq_true] at hcomp
    exact hcomp.2
  obtain ⟨nxt, hnxt⟩ := Option.isSome_iff_exists.mp hsome
  have hi1 : i + 1 < (effective_table aw close).length := by
    by_contra hcon
    rw [List.getElem?_eq_none (by omega)] at hnxt
    cases hnxt
  have hilt : i < (effective_table aw close).length := by omega
  have hcur : (effective_table aw close)[i]? =
      some ((effective_table aw close)[i]) :=
    List.getElem?_eq_getElem _
  refine ⟨hi1, (effective_table aw close)[i], nxt, hcur, hnxt, ?_, ?_⟩
  · show (target_price_col (effective_table aw close)).getD i none = some nxt
    rw [htp, hnxt]
  · show (target_direction_col (effective_table aw close)).getD i 0 = _
    unfold target_direction_col
    rw [range_map_getD _ _ _ _ hi, hnxt]
    rw [List.getD_eq_getElem _ _ (by omega)]

/-- Column `log_return_col` is aligned with its input. -/
theorem log_return_col_length (rlog : ℚ → ℚ) (close : List ℚ) :
    (log_return_col rlog close).length = close.length := by
  cases close with
  | nil => rfl
  | cons c cs => simp [log_return_col, List.length_zipWith]

/-- With positive closes, every `log_return_col` entry past the first is
defined. -/
theorem log_return_col_isSome (rlog : ℚ → ℚ) (close : List ℚ)
    (hpos : ∀ x ∈ close, 0 < x) (j : ℕ) (h1 : 1 ≤ j)
    (hj : j < (log_return_col rlog close).length) :
    ((log_return_col rlog close)[j]).isSome = true := by
  have hjc : j < close.length := by
    rw [log_return_col_length] at hj
    exact hj
  match close, hpos, hjc with
  | c :: cs, hpos, hjc =>
    obtain ⟨k, rfl⟩ : ∃ k, j = k + 1 := ⟨j - 1, by omega⟩
    have hk : k < cs.length := by simpa using Nat.lt_of_succ_lt_succ hjc
    have hkc : k < (c :: cs).length := by simpa using Nat.lt_succ_of_lt hk
    simp only [log_return_col, List.getElem_cons_succ]
    rw [List.getElem_zipWith]
    simp only [List.tail_cons]
    have ha : 0 < (c :: cs)[k] := hpos _ (List.getElem_mem _)
    have hb : 0 < cs[k] := hpos _ (List.mem_cons_of_mem c (List.getElem_mem hk))
    rw [if_pos (div_pos hb ha)]
    rfl

/-- Column `pct_return_col` is aligned with its input. -/
theorem pct_return_col_length (close : List ℚ) :
    (pct_return_col close).length = close.length := by
  cases close with
  | nil => rfl
  | cons c cs => simp [pct_return_col, List.length_zipWith]

/-- With positive closes, every `pct_return_col` entry past the first is
defined. -/
theorem pct_return_col_isSome (close : List ℚ)
    (hpos : ∀ x ∈ close, 0 < x) (j : ℕ) (h1 : 1 ≤ j)
    (hj : j < (pct_return_col close).length) :
    ((pct_return_col close)[j]).isSome = true := by
  have hjc : j < close.length := by
    rw [pct_return_col_length] at hj
    exact hj
  match close, hpos, hjc with
  | c :: cs, hpos, hjc =>
    obtain ⟨k, rfl⟩ : ∃ k, j = k + 1 := ⟨j - 1, by omega⟩
    have hk : k < cs.length := by simpa using Nat.lt_of_succ_lt_succ hjc
    have hkc : k < (c :: cs).length := by simpa using Nat.lt_succ_of_lt hk
    simp only [pct_return_col, List.getElem_cons_succ]
    rw [List.getElem_zipWith]
    simp only [List.tail_cons]
    have ha : 0 < (c :: cs)[k] := hpos _ (List.getElem_mem _)
    rw [if_neg (ne_of_gt ha)]
    rfl

/-- A rolling-std entry over a fully defined full window is defined. -/
theorem rolling_std_getD_isSome (rsqrt : ℚ → ℚ) (w : ℕ) (xs : List (Option ℚ))
    (i : ℕ) (hw : w ≤ i + 1) (hi : i < xs.length)
    (hwin : ∀ k (hk2 : k < xs.length), i + 1 - w ≤ k → k ≤ i →
       (xs[k]).isSome = true) :
    ((rolling_std rsqrt w xs).getD i none).isSome = true := by
  unfold rolling_std
  rw [range_map_getD _ _ _ _ hi, if_pos hw]
  have hall : ((xs.drop (i + 1 - w)).take w).all Option.isSome = true := by
    rw [List.all_eq_true]
    intro x hx
    rcases List.mem_iff_getElem.mp hx with ⟨k, hk, rfl⟩
    have hklt : k < w := by
      have h2 := hk
      rw [List.length_take] at h2
      omega
    have hkd : k < (xs.drop (i + 1 - w)).length := by
      have h2 := hk
      rw [List.length_take] at h2
      omega
    rw [List.getElem_take, List.getElem_drop]
    exact hwin (i + 1 - w + k) (by rw [List.length_drop] at hkd; omega)
      (by omega) (by omega)
  rw [if_pos hall]
  rfl

/-- A window containing two distinct values has nonzero sample variance. -/
theorem sample_variance_ne_zero (l : List ℚ) (a b : ℚ)
    (ha : a ∈ l) (hb : b ∈ l) (hab : a ≠ b) : sample_variance l ≠ 0 := by
  intro h0
  have hlen2 : 2 ≤ l.length := by
    match l, ha, hb with
    | [x], ha, hb =>
      rw [List.mem_singleton] at ha hb
      exact absurd (ha.trans hb.symm) hab
    | x :: y :: rest, _, _ => simp
  have hden : ((l.length : ℚ) - 1) ≠ 0 := by
    have : (2 : ℚ) ≤ (l.length : ℚ) := by exact_mod_cast hlen2
    intro hc
    rw [sub_eq_zero] at hc
    rw [hc] at this
    norm_num at this
  have hsum0 : (l.map fun x => (x - l.sum / l.length) ^ 2).sum = 0 := by
    rcases div_eq_zero_iff.mp h0 with h | h
    · exact h
    · exact absurd h hden
  have hall : ∀ x ∈ l, (x - l.sum / l.length) ^ 2 = 0 := by
    intro x hx
    have hle : (x - l.sum / l.length) ^ 2 ≤ (l.map fun y => (y - l.sum / l.length) ^ 2).sum :=
      List.single_le_sum
        (fun y hy => by
          rcases List.mem_map.mp hy with ⟨z, _, rfl⟩
          exact sq_nonneg _) _
        (List.mem_map_of_mem _ hx)
    have hge : 0 ≤ (x - l.sum / l.length) ^ 2 := sq_nonneg _
    linarith [hsum0 ▸ hle]
  have hA : a = l.sum / l.length := by
    have := hall a ha
    have h2 := sq_eq_zero_iff.mp this
    linarith
  have hB : b = l.sum / l.length := by
    have := hall b hb
    have h2 := sq_eq_zero_iff.mp this
    linarith
  exact hab (hA.trans hB.symm)

/-- Any fully defined row of the pre-pruning table survives `dropna` and is
a member of the `process_data` output. -/
theorem mem_process_data (rlog rsqrt : ℚ → ℚ) (aw : Bool) (close : List ℚ) (i : ℕ)
    (hi : i < (effective_table aw close).length)
    (hcomp : row_complete (feature_row rlog rsqrt (effective_table aw close) i) = true) :
    (i, feature_row rlog rsqrt (effective_table aw close) i) ∈
      process_data rlog rsqrt aw close := by
  unfold process_data build_rows
  rw [List.mem_filter]
  exact ⟨List.mem_map.mpr ⟨i, List.mem_range.mpr hi, rfl⟩, hcomp⟩

/-- The concrete close series `1, 2, …, 51` used by the C7 witness. -/
def witness_close : List ℚ :=
  (List.range 51).map fun k => ((k + 1 : ℕ) : ℚ)

/-- The witness closes are positive. -/
theorem witness_close_pos : ∀ x ∈ witness_close, 0 < x := by
  intro x hx
  rcases List.mem_map.mp hx with ⟨k, _, rfl⟩
  exact_mod_cast Nat.succ_pos k

/-- The witness closes are strictly increasing. -/
theorem witness_close_pairwise : witness_close.Pairwise (· < ·) := by
  unfold witness_close
  refine List.Pairwise.map _ (fun a b hab => ?_) (List.pairwise_lt_range 51)
  exact_mod_cast Nat.succ_lt_succ hab

/-- Row 49 of the witness table is fully defined: it survives the pruning. -/
theorem witness_row_complete :
    row_complete (feature_row (fun _ => 0) (fun _ => 0) witness_close 49) = true := by
  have hlen : witness_close.length = 51 := by simp [witness_close]
  have hb49l : 49 < (log_return_col (fun _ => (0 : ℚ)) witness_close).length := by
    rw [log_return_col_length, hlen]
    omega
  have hb49p : 49 < (pct_return_col witness_close).length := by
    rw [pct_return_col_length, hlen]
    omega
  have h1 : ((log_return_col (fun _ => 0) witness_close).getD 49 none).isSome = true := by
    rw [List.getD_eq_getElem _ _ hb49l]
    exact log_return_col_isSome _ _ witness_close_pos 49 (by omega) hb49l
  have h2 : ((pct_return_col witness_close).getD 49 none).isSome = true := by
    rw [List.getD_eq_getElem _ _ hb49p]
    exact pct_return_col_isSome _ witness_close_pos 49 (by omega) hb49p
  have h3 : ((volatility_20_col (fun _ => 0) (fun _ => 0) witness_close).getD 49
      none).isSome = true := by
    unfold volatility_20_col
    refine rolling_std_getD_isSome _ 20 _ 49 (by omega)
      (by rw [log_return_col_length, hlen]; omega) ?_
    intro k hk2 hk30 hk49
    have hk1 : 1 ≤ k := by omega
    exact log_return_col_isSome _ _ witness_close_pos k hk1 hk2
  have h4 : ((price_zscore_col (fun _ => 0) witness_close).getD 49 none).isSome = true := by
    unfold price_zscore_col
    rw [range_map_getD _ _ _ _ (by rw [hlen]; omega), if_pos (by omega)]
    have hv : sample_variance ((witness_close.drop (49 + 1 - 50)).take 50) ≠ 0 := by
      have hwl : ((witness_close.drop (49 + 1 - 50)).take 50).length = 50 := by
        rw [List.length_take, List.length_drop, hlen]
        rfl
      have hb0 : 0 < ((witness_close.drop (49 + 1 - 50)).take 50).length := by
        rw [hwl]; omega
      have hb1 : 1 < ((witness_close.drop (49 + 1 - 50)).take 50).length := by
        rw [hwl]; omega
      have hm1 : (1 : ℚ) ∈ (witness_close.drop (49 + 1 - 50)).take 50 := by
        have he : ((witness_close.drop (49 + 1 - 50)).take 50)[0] = 1 := by
          rw [List.getElem_take, List.getElem_drop]
          simp [witness_close]
        rw [← he]
        exact List.getElem_mem _
      have hm2 : (2 : ℚ) ∈ (witness_close.drop (49 + 1 - 50)).take 50 := by
        have he : ((witness_close.drop (49 + 1 - 50)).take 50)[1] = 2 := by
          rw [List.getElem_take, List.getElem_drop]
          simp [witness_close]
          norm_num
        rw [← he]
        exact List.getElem_mem _
      exact sample_variance_ne_zero _ 1 2 hm1 hm2 (by norm_num)
    rw [if_neg hv]
    rfl
  have h5 : ((calculate_sma witness_close 20).getD 49 none).isSome = true := by
    unfold calculate_sma rolling_mean
    rw [range_map_getD _ _ _ _ (by rw [hlen]; omega), if_pos (by omega)]
    rfl
  have h6 : ((calculate_sma witness_close 50).getD 49 none).isSome = true := by
    unfold calculate_sma rolling_mean
    rw [range_map_getD _ _ _ _ (by rw [hlen]; omega), if_pos (by omega)]
    rfl
  have h7 : ((calculate_rsi witness_close 14).getD 49 none).isSome = true := by
    have hr := calculate_rsi_spec witness_close witness_close_pairwise 49
      (by omega) (by rw [hlen]; omega)
    rw [List.getD_eq_getElem?_getD, hr]
    rfl
  have h8 : ((target_price_col witness_close).getD 49 none).isSome = true := by
    unfold target_price_col
    rw [range_map_getD _ _ _ _ (by rw [hlen]; omega)]
    rw [List.getElem?_eq_getElem (by rw [hlen]; omega)]
    rfl
  simp only [List.getD_eq_getElem?_getD] at h1 h2 h3 h4 h5 h6 h7 h8
  simp [row_complete, feature_row, h1, h2, h3, h4, h5, h6, h7, h8]

/-- Witness for C7: on the 51-row increasing series `1, …, 51` the row at
position 49 survives the pruning, and the target contract of
`process_data_targets` holds for it. -/
theorem process_data_targets_witness :
    (49 : ℕ) + 1 < witness_close.length ∧
    ∃ cur nxt, witness_close[(49 : ℕ)]? = some cur ∧
      witness_close[(49 : ℕ) + 1]? = some nxt ∧
      (feature_row (fun _ => 0) (fun _ => 0) witness_close 49).target_price = some nxt ∧
      (feature_row (fun _ => 0) (fun _ => 0) witness_close 49).target_direction =
        (if cur < nxt then 1 else 0) :=
  process_data_targets (fun _ => 0) (fun _ => 0) false witness_close
    (49, feature_row (fun _ => 0) (fun _ => 0) witness_close 49)
    (mem_process_data (fun _ => 0) (fun _ => 0) false witness_close 49
      (by simp [effective_table, witness_close]) witness_row_complete)

/-- C9: `process_data` is a pure function of the raw close series and its
parameters — the embedding carries no randomness or run-dependent state, and
two runs on the same input with the same rolling-window setting produce
identical output tables. -/
theorem process_data_deterministic (rlog rsqrt : ℚ → ℚ) (aw : Bool)
    (close close' : List ℚ) (h : close = close') :
    process_data rlog rsqrt aw close = process_data rlog rsqrt aw close' := by
  rw [h]

/-- Witness for C9 at a concrete input. -/
theorem process_data_deterministic_witness :
    process_data (fun _ => 0) (fun _ => 0) true ([1, 2, 3] : List ℚ) =
      process_data (fun _ => 0) (fun _ => 0) true ([1, 2, 3] : List ℚ) :=
  process_data_deterministic (fun _ => 0) (fun _ => 0) true [1, 2, 3] [1, 2, 3] rfl

/-!
The clustering trainer (`ModelTrainer.train_clustering`, `train.py` lines
145–166) is embedded over `ℝ` with the genuine `Real.log` and `Real.sqrt`,
because claim C8 is about the *value* of the volatility column it derives.
-/

noncomputable section

/-- pandas `Series.pct_change()` over exact reals: NaN on the first row, then
`(x_i − x_{i−1}) / x_{i−1}` (a zero previous close — impossible for positive
prices — would give an IEEE infinity, which is not NaN either). -/
def pct_change (xs : List ℝ) : List (Option ℝ) :=
  match xs with
  | [] => []
  | _ :: _ => none :: List.zipWith (fun a b => some ((b - a) / a)) xs xs.tail

/-- Sample variance over `ℝ` (pandas' default `ddof=1`). -/
def sample_variance_R (l : List ℝ) : ℝ :=
  ((l.map fun x => (x - l.sum / l.length) ^ 2).sum) / ((l.length : ℝ) - 1)

/-- pandas `Series.rolling(window=w).std()` over `ℝ`: the square root of the
sample variance of the trailing window, NaN while the window is not full or
contains a NaN. -/
def rolling_std_R (w : ℕ) (xs : List (Option ℝ)) : List (Option ℝ) :=
  (List.range xs.length).map fun i =>
    if w ≤ i + 1 then
      (if ((xs.drop (i + 1 - w)).take w).all Option.isSome then
        some (Real.sqrt (sample_variance_R (((xs.drop (i + 1 - w)).take w).filterMap id)))
      else none)
    else none

/-- The volatility `train_clustering` actually derives (`train.py` lines
151–153): `df['returns'] = df['close'].pct_change()` followed by
`df['volatility'] = df['returns'].rolling(window=20).std()` — the rolling
standard deviation of *percentage* returns. -/
def derived_volatility (close : List ℝ) : List (Option ℝ) :=
  rolling_std_R 20 (pct_change close)

/-- Modelled from the spec (§4.1): "Log return: natural log of (close /
previous close); undefined for the first row" — the return series the claim
says the volatility is computed from. -/
def spec_log_return (close : List ℝ) : List (Option ℝ) :=
  match close with
  | [] => []
  | _ :: _ =>
    none :: List.zipWith (fun a b => some (Real.log (b / a))) close close.tail

/-- Modelled from the spec (§4.1): "Rolling volatility(window=20): standard
deviation of log returns over the trailing window" — what C8 claims
`train_clustering` derives. -/
def spec_rolling_volatility (close : List ℝ) : List (Option ℝ) :=
  rolling_std_R 20 (spec_log_return close)

/-- The k-means fit performed by `train_clustering`: the exact data handed to
`KMeans.fit` and the cluster count (the fit itself is the external `sklearn`
call). -/
structure ClusterFit where
  points : List (ℝ × ℝ)
  n_clusters : ℕ

/-- Method `ModelTrainer.train_clustering(df)` from `train.py`, for an input table
without a `volatility` column (the processed table built by `process_data`
has `volatility_20` but not `volatility`, and `train_and_evaluate` in
`flows.py` hands exactly that table over): derive
`returns = close.pct_change()` and `volatility = returns.rolling(20).std()`,
`dropna()`, and fit `KMeans(n_clusters=3)` on `df[['volatility', 'rsi']]`.
A row is a `(close, rsi)` pair; since the input table has no NaN and the
`returns` entry is NaN only at index 0, where the volatility is NaN as well,
`dropna()` keeps exactly the rows with a defined volatility. -/
def train_clustering (rows : List (ℝ × ℝ)) : ClusterFit :=
  let vol := rolling_std_R 20 (pct_change (rows.map Prod.fst))
  { points := (rows.zip vol).filterMap fun pv => pv.2.map fun v => (v, pv.1.2)
    n_clusters := 3 }

end

/-- Pairing a list with an `Option` column and keeping the defined pairs is
the same as walking the indices and keeping those where the column is
defined. -/
theorem zip_filterMap_indexed {α β γ : Type} (d : α) :
    ∀ (xs : List α) (ys : List (Option β)) (g : α → β → γ),
      xs.length = ys.length →
      (xs.zip ys).filterMap (fun pv => pv.2.map fun v => g pv.1 v) =
        (List.range xs.length).filterMap fun i =>
          (ys.getD i none).map fun v => g (xs.getD i d) v := by
  intro xs
  induction xs with
  | nil => intro ys g h; rfl
  | cons x xs ih =>
    intro ys g h
    match ys with
    | [] => simp at h
    | y :: ys =>
      have h' : xs.length = ys.length := by simpa using h
      rw [List.zip_cons_cons, List.filterMap_cons, List.length_cons,
        List.range_succ_eq_map, List.filterMap_cons, List.filterMap_map]
      have hcomp :
          ((fun i => (((y :: ys).getD i none).map
              fun v => g ((x :: xs).getD i d) v) : ℕ → Option γ) ∘ Nat.succ) =
            fun i => ((ys.getD i none).map fun v => g (xs.getD i d) v) := by
        funext i
        rfl
      rw [hcomp, ih ys g h']
      cases y <;> rfl

/-- C8 (amended): for an input table lacking a volatility column, the
clustering trainer derives volatility as the trailing 20-day rolling standard
deviation of *percentage* returns (`pct_change`), not of log returns, and
fits k-means with exactly 3 clusters on the `(volatility, RSI)` pairs of the
NaN-pruned rows: the fitted points are exactly the pairs of a defined entry
of the derived volatility column with the RSI at the same row, in row
order. -/
theorem train_clustering_spec (rows : List (ℝ × ℝ)) :
    (train_clustering rows).n_clusters = 3 ∧
    (train_clustering rows).points =
      (rows.zip (derived_volatility (rows.map Prod.fst))).filterMap
        (fun pv => pv.2.map fun v => (v, pv.1.2)) ∧
    (train_clustering rows).points =
      (List.range rows.length).filterMap fun i =>
        ((derived_volatility (rows.map Prod.fst)).getD i none).map
          fun v => (v, (rows.getD i (0, 0)).2) := by
  refine ⟨rfl, rfl, ?_⟩
  have hlen : rows.length = (derived_volatility (rows.map Prod.fst)).length := by
    unfold derived_volatility rolling_std_R pct_change
    cases hrows : rows.map Prod.fst with
    | nil =>
      have : rows = [] := by
        cases rows with
        | nil => rfl
        | cons a l => simp at hrows
      simp [this]
    | cons c cs =>
      have : rows.length = (c :: cs).length := by
        rw [← hrows, List.length_map]
      rw [this]
      simp [List.length_zipWith]
  exact zip_filterMap_indexed (0, 0) rows (derived_volatility (rows.map Prod.fst))
    (fun a v => (v, a.2)) hlen

/-- The concrete close series `1, 2, 2, …, 2` (21 rows) separating the two
volatility definitions. -/
noncomputable def cex_close : List ℝ :=
  1 :: List.replicate 20 2

/-- Counterexample for C8 as stated: at index 20 of the 21-row close series
`1, 2, 2, …, 2`, the volatility that `train_clustering` derives (rolling std
of percentage returns, `√(1/20)`) differs from the §4.1 rolling volatility
(rolling std of log returns, `√((log 2)²/20)`), because `log 2 < 1`. -/
theorem train_clustering_volatility_cex :
    (derived_volatility cex_close)[20]? ≠ (spec_rolling_volatility cex_close)[20]? := by
  have hpct : pct_change cex_close = none :: some 1 :: List.replicate 19 (some 0) := by
    show none :: List.zipWith _ (1 :: List.replicate 20 2) (1 :: List.replicate 20 (2:ℝ)).tail = _
    rw [List.tail_cons,
      show (List.replicate 20 (2:ℝ)) = 2 :: List.replicate 19 2 from rfl,
      List.zipWith_cons_cons,
      show ((2:ℝ) :: List.replicate 19 2) = List.replicate 20 2 from rfl,
      List.zipWith_replicate]
    norm_num
  have hlog : spec_log_return cex_close =
      none :: some (Real.log 2) :: List.replicate 19 (some 0) := by
    show none :: List.zipWith _ (1 :: List.replicate 20 2) (1 :: List.replicate 20 (2:ℝ)).tail = _
    rw [List.tail_cons,
      show (List.replicate 20 (2:ℝ)) = 2 :: List.replicate 19 2 from rfl,
      List.zipWith_cons_cons,
      show ((2:ℝ) :: List.replicate 19 2) = List.replicate 20 2 from rfl,
      List.zipWith_replicate]
    norm_num [Real.log_one]
  have hvarA : sample_variance_R (1 :: List.replicate 19 0) = 1 / 20 := by
    unfold sample_variance_R
    rw [List.sum_cons, List.sum_replicate, smul_zero, List.map_cons, List.map_replicate,
      List.sum_cons, List.sum_replicate, nsmul_eq_mul]
    norm_num
  have hvarB : sample_variance_R (Real.log 2 :: List.replicate 19 0) = Real.log 2 ^ 2 / 20 := by
    unfold sample_variance_R
    rw [List.sum_cons, List.sum_replicate, smul_zero, List.map_cons, List.map_replicate,
      List.sum_cons, List.sum_replicate, nsmul_eq_mul]
    simp only [List.length_cons, List.length_replicate]
    push_cast
    ring
  have hwinA : ((pct_change cex_close).drop (20 + 1 - 20)).take 20 =
      some 1 :: List.replicate 19 (some 0) := by
    rw [hpct]
    rfl
  have hwinB : ((spec_log_return cex_close).drop (20 + 1 - 20)).take 20 =
      some (Real.log 2) :: List.replicate 19 (some 0) := by
    rw [hlog]
    rfl
  have hlenA : (pct_change cex_close).length = 21 := by rw [hpct]; rfl
  have hlenB : (spec_log_return cex_close).length = 21 := by rw [hlog]; rfl
  have hA : (derived_volatility cex_close)[20]? = some (some (Real.sqrt (1 / 20))) := by
    unfold derived_volatility rolling_std_R
    rw [hlenA, range_map_getElem? _ _ _ (by omega), if_pos (by omega), hwinA]
    rw [if_pos (by rfl)]
    have hfm : (some (1:ℝ) :: List.replicate 19 (some 0)).filterMap id =
        1 :: List.replicate 19 0 := by
      rfl
    rw [hfm, hvarA]
  have hB : (spec_rolling_volatility cex_close)[20]? =
      some (some (Real.sqrt (Real.log 2 ^ 2 / 20))) := by
    unfold spec_rolling_volatility rolling_std_R
    rw [hlenB, range_map_getElem? _ _ _ (by omega), if_pos (by omega), hwinB]
    rw [if_pos (by rfl)]
    have hfm : (some (Real.log 2) :: List.replicate 19 (some 0)).filterMap id =
        Real.log 2 :: List.replicate 19 0 := by
      rfl
    rw [hfm, hvarB]
  rw [hA, hB]
  have hlog2pos : 0 < Real.log 2 := Real.log_pos (by norm_num)
  have hlog2lt : Real.log 2 < 1 := by
    have := Real.log_two_lt_d9
    linarith
  have hsq : Real.log 2 ^ 2 < 1 := pow_lt_one₀ (le_of_lt hlog2pos) hlog2lt (by norm_num)
  have hlt : Real.sqrt (Real.log 2 ^ 2 / 20) < Real.sqrt (1 / 20) :=
    Real.sqrt_lt_sqrt (by positivity) (by linarith)
  intro hcon
  simp only [Option.some.injEq] at hcon
  exact absurd hcon (ne_of_lt hlt).symm

end MLOps
